import Mathlib

/-!
Shallow embedding of the continuous-batching sequence-group core of the
repository, and proofs about its claims.

Two variants of the code are modelled:

* namespace `Lib`: `text_generation/causal_lm/cpp/continuous_batching/library/src/sequence_group.hpp`
  together with `library/include/generation_handle.hpp`.  This is the variant
  the specification declares authoritative (initial status `RUNNING`,
  `preempt_tokens` rewinds `m_max_content_len` and trims generated tails).
* namespace `CB`: `text_generation/causal_lm/cpp/continuous_batching/sequence_group.hpp`
  together with `llm_engine.hpp` (the engine with `GenerationResult`,
  `step()` and `generate()` lives only in this variant).

Machine integers (`size_t`, `uint64_t`, `int64_t`) are modelled as `Nat` /
`Int`; none of the modelled operations bring a counter anywhere near 2^64,
and every subtraction is guarded by the source's `OPENVINO_ASSERT`
(modelled as an `Option` result or as a hypothesis).  `float` log
probabilities are modelled as `ℚ`; `std::pow` is an abstract parameter
`pw : ℚ → ℚ → ℚ` wherever the beam-search score appears.
-/

namespace Lib

/-- Status enum of `sequence_group.hpp` (library variant): `RUNNING = 0`,
`FINISHED = 1`. -/
inductive SequenceStatus where
  | RUNNING
  | FINISHED
deriving DecidableEq

/-- `GenerationOutput` from `generation_handle.hpp`: parent id, token id and
cumulative log probability snapshot. -/
structure GenerationOutput where
  parent_id : Nat
  token_id : Int
  cumulative_log_prob : ℚ
deriving DecidableEq

/-- `GenerationOutputs = std::unordered_map<uint64_t, GenerationOutput>`,
modelled as an association list built only through `emplace` (which, like
`unordered_map::emplace`, inserts a key at most once). -/
abbrev GenerationOutputs := List (Nat × GenerationOutput)

/-- `unordered_map::emplace`: insert `(k, v)` unless the key is present. -/
def emplace (m : GenerationOutputs) (k : Nat) (v : GenerationOutput) : GenerationOutputs :=
  if m.any (fun p => p.1 = k) then m else m ++ [(k, v)]

/-- Only the `length_penalty` field of `GenerationConfig` is read by the
modelled code (`Sequence::get_beam_search_score`).  The header
`generation_config.hpp` itself is not under `src/`; the spec lists
`length_penalty` as a float defaulting to 1.0. -/
structure GenerationConfig where
  length_penalty : ℚ
deriving DecidableEq

/-- `class Sequence` of the library variant: generated ids, parent id
(0 when created from scratch), unique id, status, cumulative log prob. -/
structure Sequence where
  generated_ids : List Int
  parent_id : Nat
  id : Nat
  status : SequenceStatus
  cumulative_log_prob : ℚ
deriving DecidableEq

/-- `Sequence::has_finished`. -/
def Sequence.has_finished (s : Sequence) : Bool :=
  decide (s.status = SequenceStatus.FINISHED)

/-- `Sequence::is_running`. -/
def Sequence.is_running (s : Sequence) : Bool :=
  decide (s.status = SequenceStatus.RUNNING)

/-- `Sequence::set_status`. -/
def Sequence.set_status (s : Sequence) (status : SequenceStatus) : Sequence :=
  { s with status := status }

/-- `Sequence::append_token`: adds the log prob and pushes the token.  Note
the source has no status guard. -/
def Sequence.append_token (s : Sequence) (token_id : Int) (log_prob : ℚ) : Sequence :=
  { s with
    cumulative_log_prob := s.cumulative_log_prob + log_prob,
    generated_ids := s.generated_ids ++ [token_id] }

/-- `Sequence::get_generated_len`. -/
def Sequence.get_generated_len (s : Sequence) : Nat :=
  s.generated_ids.length

/-- `Sequence::get_last_generation_output`: reads
`m_generated_ids[size - 1]`; the source indexes unconditionally and is only
called when the sequence has generated at least one token, so the default
for the empty case is irrelevant junk. -/
def Sequence.get_last_generation_output (s : Sequence) : GenerationOutput :=
  { parent_id := s.parent_id,
    cumulative_log_prob := s.cumulative_log_prob,
    token_id := s.generated_ids.getLastD 0 }

/-- `Sequence::remove_tokens(count)`: erases the last `count` generated ids.
The source asserts `m_generated_ids.size() >= count`; every call site passes
`count ≤ length`, which `take` reflects exactly. -/
def Sequence.remove_tokens (s : Sequence) (count : Nat) : Sequence :=
  { s with generated_ids := s.generated_ids.take (s.generated_ids.length - count) }

/-- `Sequence::get_beam_search_score`, with `std::pow` abstracted as `pw`:
`cumulative_log_prob / pow(current_length, length_penalty)`. -/
def Sequence.get_beam_search_score (pw : ℚ → ℚ → ℚ) (sampling_params : GenerationConfig)
    (s : Sequence) : ℚ :=
  s.cumulative_log_prob / pw (s.get_generated_len : ℚ) sampling_params.length_penalty

/-- A fresh `Sequence` as built by `Sequence::create` once the static
counter has handed out `id`: default member initializers give empty
generated ids, `parent_id = 0`, status `RUNNING`, log prob 0. -/
def mk_sequence (id : Nat) : Sequence :=
  { generated_ids := [], parent_id := 0, id := id,
    status := SequenceStatus.RUNNING, cumulative_log_prob := 0 }

/-- `Sequence::fork` (the copy-like constructor): copies generated ids,
status and log prob, sets `parent_id` to the parent's id, and takes a fresh
id from the counter. -/
def fork_sequence_of (parent : Sequence) (id : Nat) : Sequence :=
  { generated_ids := parent.generated_ids, parent_id := parent.id, id := id,
    status := parent.status, cumulative_log_prob := parent.cumulative_log_prob }

/-- `class SequenceGroup` of the library variant.  The generation stream is
modelled by the list of pushed `GenerationOutputs` chunks, in FIFO order. -/
structure SequenceGroup where
  request_id : Nat
  sequences : List Sequence
  sampling_params : GenerationConfig
  block_size : Nat
  prompt_ids : List Int
  stream : List GenerationOutputs
  num_processed_tokens : Nat
  num_scheduled_tokens : Nat
  max_content_len : Nat
deriving DecidableEq

/-- The public `SequenceGroup` constructor: stores the prompt ids at the
group level and adds one freshly created sequence (id drawn from the static
counter, passed here as `c`); all three scheduling counters start at 0.
Returns the group together with the advanced counter. -/
def SequenceGroup.make (request_id : Nat) (input_ids : List Int)
    (sampling_params : GenerationConfig) (block_size : Nat) (c : Nat) :
    SequenceGroup × Nat :=
  ({ request_id := request_id,
     sequences := [mk_sequence c],
     sampling_params := sampling_params,
     block_size := block_size,
     prompt_ids := input_ids,
     stream := [],
     num_processed_tokens := 0,
     num_scheduled_tokens := 0,
     max_content_len := 0 }, c + 1)

/-- `SequenceGroup::get_prompt_ids`. -/
def SequenceGroup.get_prompt_ids (g : SequenceGroup) : List Int :=
  g.prompt_ids

/-- `SequenceGroup::schedule_tokens`. -/
def SequenceGroup.schedule_tokens (g : SequenceGroup) (num_tokens : Nat) : SequenceGroup :=
  { g with num_scheduled_tokens := num_tokens }

/-- `SequenceGroup::clear_scheduled_tokens`. -/
def SequenceGroup.clear_scheduled_tokens (g : SequenceGroup) : SequenceGroup :=
  { g with num_scheduled_tokens := 0 }

/-- `SequenceGroup::finish_iteration`: commits the scheduled tokens into
`m_num_processed_tokens`, lifts `m_max_content_len` to at least the new
processed count, then clears the scheduled count. -/
def SequenceGroup.finish_iteration (g : SequenceGroup) : SequenceGroup :=
  { g with
    num_processed_tokens := g.num_processed_tokens + g.num_scheduled_tokens,
    max_content_len := max g.max_content_len (g.num_processed_tokens + g.num_scheduled_tokens),
    num_scheduled_tokens := 0 }

/-- `SequenceGroup::preempt_tokens` (library variant): asserts
`num_preempt_tokens <= m_num_processed_tokens` (modelled by returning
`none` when violated), rolls `m_num_processed_tokens` and
`m_max_content_len` back by that amount, and removes
`min(num_preempt_tokens, generated_len)` tokens from every sequence. -/
def SequenceGroup.preempt_tokens (g : SequenceGroup) (num_preempt_tokens : Nat) :
    Option SequenceGroup :=
  if num_preempt_tokens ≤ g.num_processed_tokens then
    some { g with
      num_processed_tokens := g.num_processed_tokens - num_preempt_tokens,
      max_content_len := g.max_content_len - num_preempt_tokens,
      sequences := g.sequences.map
        (fun s => s.remove_tokens (min num_preempt_tokens s.get_generated_len)) }
  else
    none

/-- The `outputs` map built inside `SequenceGroup::notify_handle`: for every
sequence with `get_generated_len() > 0`, `emplace` its id and last
generation output. -/
def notify_collect (g : SequenceGroup) : GenerationOutputs :=
  g.sequences.foldl
    (fun outs s =>
      if 0 < s.get_generated_len then emplace outs s.id s.get_last_generation_output
      else outs)
    []

/-- `SequenceGroup::notify_handle`: pushes the collected outputs onto the
generation stream when the map is non-empty. -/
def SequenceGroup.notify_handle (g : SequenceGroup) : SequenceGroup :=
  if notify_collect g ≠ [] then { g with stream := g.stream ++ [notify_collect g] } else g

/-- `SequenceGroup::get_finished_sequences`: collect the finished sequences
in index order, then sort by strictly descending beam-search score
(`std::sort` with comparator `score s1 > score s2`, modelled by a merge
sort with the complementary non-strict order, which satisfies the same
sortedness and permutation contract). -/
def SequenceGroup.get_finished_sequences (pw : ℚ → ℚ → ℚ) (g : SequenceGroup) :
    List Sequence :=
  (g.sequences.filter (fun s => s.has_finished)).mergeSort
    (fun s1 s2 =>
      decide (Sequence.get_beam_search_score pw g.sampling_params s2
        ≤ Sequence.get_beam_search_score pw g.sampling_params s1))

end Lib

/-- C10: `finish_iteration` is idempotent: a second call in succession adds
the cleared (zero) scheduled count to `num_processed_tokens`, leaves
`max_content_len` at its fixed point, and clears an already-zero scheduled
count, so the whole group state is unchanged. -/
theorem finish_iteration_idempotent (g : Lib.SequenceGroup) :
    g.finish_iteration.finish_iteration = g.finish_iteration := by
  cases g
  simp [Lib.SequenceGroup.finish_iteration, Nat.max_eq_left (Nat.le_max_right _ _)]

/-- C7: a group freshly constructed from a request id, prompt token ids and
sampling parameters contains exactly one sequence, that sequence has
`parent_id = 0` and empty `generated_ids`, and `get_prompt_ids` returns the
prompt ids the group was constructed with. -/
theorem fresh_group_single_sequence (rid : Nat) (input_ids : List Int)
    (params : Lib.GenerationConfig) (bs c : Nat) :
    (Lib.SequenceGroup.make rid input_ids params bs c).1.sequences = [Lib.mk_sequence c]
    ∧ (Lib.mk_sequence c).parent_id = 0
    ∧ (Lib.mk_sequence c).generated_ids = []
    ∧ (Lib.SequenceGroup.make rid input_ids params bs c).1.get_prompt_ids = input_ids := by
  refine ⟨rfl, rfl, rfl, rfl⟩

namespace Lib

/-- Operations a scheduler tick applies to a group, other than preemption:
`schedule_tokens`, `finish_iteration`, `clear_scheduled_tokens`, and
`notify_handle`. -/
inductive GroupOp where
  | schedule (n : Nat)
  | finish
  | clear
  | notify

/-- Apply one group operation. -/
def applyOp (g : SequenceGroup) : GroupOp → SequenceGroup
  | GroupOp.schedule n => g.schedule_tokens n
  | GroupOp.finish => g.finish_iteration
  | GroupOp.clear => g.clear_scheduled_tokens
  | GroupOp.notify => g.notify_handle

lemma applyOp_sequences (g : SequenceGroup) (op : GroupOp) :
    (applyOp g op).sequences = g.sequences := by
  cases op <;>
    simp only [applyOp, SequenceGroup.schedule_tokens, SequenceGroup.finish_iteration,
      SequenceGroup.clear_scheduled_tokens, SequenceGroup.notify_handle]
  split <;> rfl

lemma foldl_applyOp_sequences (ops : List GroupOp) (g : SequenceGroup) :
    (ops.foldl applyOp g).sequences = g.sequences := by
  induction ops generalizing g with
  | nil => rfl
  | cons op ops ih => rw [List.foldl_cons, ih, applyOp_sequences]

lemma applyOp_max_content_len (g : SequenceGroup) (op : GroupOp) :
    g.max_content_len ≤ (applyOp g op).max_content_len := by
  cases op <;>
    simp only [applyOp, SequenceGroup.schedule_tokens, SequenceGroup.finish_iteration,
      SequenceGroup.clear_scheduled_tokens, SequenceGroup.notify_handle]
  · exact le_rfl
  · exact Nat.le_max_left _ _
  · exact le_rfl
  · split <;> exact le_rfl

/-- A concrete reachable group used to exhibit preemption behaviour: built
by the constructor on prompt `[5]`, then one tick that schedules and
commits a single token. -/
def gEx : SequenceGroup :=
  ((SequenceGroup.make 0 [5] ⟨1⟩ 16 1).1.schedule_tokens 1).finish_iteration

end Lib

/-- C1: on the library variant, `preempt_tokens k` (for `k` within the
asserted bound `k ≤ num_processed_tokens`, on a group satisfying the
documented invariant `num_processed_tokens ≤ max_content_len`) succeeds,
decreases `num_processed_tokens` by `k`, decreases `max_content_len` by
`k`, and removes the last `min(k, generated_len)` tokens from the
generated ids of every sequence in the group. -/
theorem preempt_tokens_rolls_back (g : Lib.SequenceGroup) (k : Nat)
    (hk : k ≤ g.num_processed_tokens)
    (hinv : g.num_processed_tokens ≤ g.max_content_len) :
    ∃ g1, g.preempt_tokens k = some g1
      ∧ g1.num_processed_tokens + k = g.num_processed_tokens
      ∧ g1.max_content_len + k = g.max_content_len
      ∧ List.Forall₂
          (fun s s1 => s1.generated_ids
            = s.generated_ids.take (s.generated_ids.length - min k s.generated_ids.length))
          g.sequences g1.sequences := by
  refine ⟨_, by rw [Lib.SequenceGroup.preempt_tokens, if_pos hk], ?_, ?_, ?_⟩
  · exact Nat.sub_add_cancel hk
  · exact Nat.sub_add_cancel (hk.trans hinv)
  · rw [List.forall₂_map_right_iff]
    exact List.forall₂_same.mpr (fun s _ => rfl)

/-- Witness for C1 at the concrete group `gEx` (one processed token, one
generated token) with `k = 1`. -/
theorem preempt_tokens_rolls_back_witness :
    1 ≤ Lib.gEx.num_processed_tokens
    ∧ Lib.gEx.num_processed_tokens ≤ Lib.gEx.max_content_len
    ∧ ∃ g1, Lib.gEx.preempt_tokens 1 = some g1
      ∧ g1.num_processed_tokens + 1 = Lib.gEx.num_processed_tokens
      ∧ g1.max_content_len + 1 = Lib.gEx.max_content_len
      ∧ List.Forall₂
          (fun s s1 => s1.generated_ids
            = s.generated_ids.take (s.generated_ids.length - min 1 s.generated_ids.length))
          Lib.gEx.sequences g1.sequences :=
  ⟨by decide, by decide, preempt_tokens_rolls_back Lib.gEx 1 (by decide) (by decide)⟩

/-- C4 counterexample: `max_content_len` is not non-decreasing over every
sequence of the listed operations, because `preempt_tokens` rewinds it.  On
the reachable group `gEx` (where `max_content_len = 1` after one committed
tick), `preempt_tokens 1` drops `max_content_len` to `0`. -/
theorem max_content_len_decreases_on_preempt :
    Lib.gEx.max_content_len = 1
    ∧ (Lib.gEx.preempt_tokens 1).map Lib.SequenceGroup.max_content_len = some 0 := by
  decide

/-- C4 amended: `max_content_len` is non-decreasing over any sequence of
`schedule_tokens`, `finish_iteration`, `clear_scheduled_tokens` (and
`notify_handle`) operations applied across ticks; only `preempt_tokens`
rewinds it. -/
theorem max_content_len_monotone (ops : List Lib.GroupOp) (g : Lib.SequenceGroup) :
    g.max_content_len ≤ (ops.foldl Lib.applyOp g).max_content_len := by
  induction ops generalizing g with
  | nil => exact le_rfl
  | cons op ops ih =>
      rw [List.foldl_cons]
      exact (Lib.applyOp_max_content_len g op).trans (ih _)

/-- A concrete finished sequence with one generated token. -/
def sEx8 : Lib.Sequence :=
  { generated_ids := [7], parent_id := 0, id := 3,
    status := Lib.SequenceStatus.FINISHED, cumulative_log_prob := 0 }

/-- C8 counterexample: `append_token` and `remove_tokens` carry no status
guard, so they do change the `generated_ids` (and, for `append_token`, the
cumulative log prob) of a `FINISHED` sequence. -/
theorem append_token_mutates_finished :
    sEx8.has_finished = true
    ∧ (sEx8.append_token 9 1).generated_ids ≠ sEx8.generated_ids
    ∧ (sEx8.append_token 9 1).cumulative_log_prob ≠ sEx8.cumulative_log_prob
    ∧ (sEx8.remove_tokens 1).generated_ids ≠ sEx8.generated_ids := by
  refine ⟨by decide, by decide, ?_, by decide⟩
  simp [sEx8, Lib.Sequence.append_token]

/-- C8 amended: a `FINISHED` sequence's `generated_ids` and cumulative
log-prob are untouched by any sequence of the group operations
`schedule_tokens`, `finish_iteration`, `clear_scheduled_tokens` and
`notify_handle` (which never modify the stored sequences); `append_token`,
`remove_tokens`, and `preempt_tokens` (which calls `remove_tokens` on every
sequence) are not guarded by status and can change that data. -/
theorem finished_sequence_preserved_by_group_ops (ops : List Lib.GroupOp)
    (g : Lib.SequenceGroup) (s : Lib.Sequence)
    (hs : s ∈ g.sequences) (_hf : s.has_finished = true) :
    (ops.foldl Lib.applyOp g).sequences = g.sequences
    ∧ s ∈ (ops.foldl Lib.applyOp g).sequences := by
  refine ⟨Lib.foldl_applyOp_sequences ops g, ?_⟩
  rw [Lib.foldl_applyOp_sequences ops g]
  exact hs

/-- A concrete group containing the finished sequence `sEx8`. -/
def gEx8 : Lib.SequenceGroup :=
  { request_id := 2, sequences := [sEx8], sampling_params := ⟨1⟩, block_size := 16,
    prompt_ids := [4], stream := [], num_processed_tokens := 2,
    num_scheduled_tokens := 0, max_content_len := 2 }

/-- Witness for the amended C8 at a concrete finished sequence and a
concrete operation list. -/
theorem finished_sequence_preserved_by_group_ops_witness :
    sEx8 ∈ gEx8.sequences ∧ sEx8.has_finished = true
    ∧ (([Lib.GroupOp.schedule 1, Lib.GroupOp.finish, Lib.GroupOp.notify].foldl
          Lib.applyOp gEx8).sequences = gEx8.sequences
        ∧ sEx8 ∈ ([Lib.GroupOp.schedule 1, Lib.GroupOp.finish, Lib.GroupOp.notify].foldl
          Lib.applyOp gEx8).sequences) :=
  ⟨by decide, by decide,
    finished_sequence_preserved_by_group_ops _ gEx8 sEx8 (by decide) (by decide)⟩

namespace Lib

/-- Creation events for sequences: `Sequence::create` and `Sequence::fork`
(the latter names an existing sequence by its position in creation order). -/
inductive SeqEvent where
  | create
  | fork (parent_index : Nat)

/-- The process-wide static counter of `Sequence::_get_next_sequence_id`
together with every sequence created so far, in creation order. -/
structure SeqFactory where
  counter : Nat
  created : List Sequence

/-- Initial state of the static counter: it starts at 1 (the source comment
reads `0 reserved as a special value`), with nothing created yet. -/
def SeqFactory.init : SeqFactory := { counter := 1, created := [] }

/-- One creation event.  Both `create` and `fork` initialize
`m_id = _get_next_sequence_id()`, which returns the counter and
post-increments it.  A `fork` with an out-of-range parent index still draws
an id; its parent data defaults to junk. -/
def SeqFactory.apply (st : SeqFactory) (e : SeqEvent) : SeqFactory :=
  match e with
  | SeqEvent.create =>
      { counter := st.counter + 1,
        created := st.created ++ [mk_sequence st.counter] }
  | SeqEvent.fork i =>
      { counter := st.counter + 1,
        created := st.created ++ [fork_sequence_of (st.created.getD i (mk_sequence 0)) st.counter] }

/-- Invariant of every reachable factory state: the counter stays positive,
every created id is positive and below the counter, and ids are strictly
increasing in creation order. -/
def SeqFactory.Inv (st : SeqFactory) : Prop :=
  1 ≤ st.counter
    ∧ (∀ s ∈ st.created, 1 ≤ s.id ∧ s.id < st.counter)
    ∧ (st.created.map Sequence.id).Pairwise (· < ·)

lemma SeqFactory.init_inv : SeqFactory.init.Inv := by
  refine ⟨le_rfl, ?_, ?_⟩ <;> simp [SeqFactory.init]

lemma SeqFactory.push_inv (st : SeqFactory) (h : st.Inv) (s : Sequence)
    (hid : s.id = st.counter) :
    SeqFactory.Inv { counter := st.counter + 1, created := st.created ++ [s] } := by
  obtain ⟨h1, h2, h3⟩ := h
  refine ⟨h1.trans (Nat.le_succ _), ?_, ?_⟩
  · intro t ht
    rcases List.mem_append.mp ht with ht | ht
    · exact ⟨(h2 t ht).1, (h2 t ht).2.trans (Nat.lt_succ_self _)⟩
    · rcases List.mem_singleton.mp ht with rfl
      exact ⟨hid ▸ h1, hid ▸ Nat.lt_succ_self _⟩
  · rw [List.map_append, List.pairwise_append]
    refine ⟨h3, by simp, ?_⟩
    intro a ha b hb
    rcases List.mem_map.mp ha with ⟨t, ht, rfl⟩
    rcases List.mem_singleton.mp (by simpa using hb) with rfl
    exact hid ▸ (h2 t ht).2

lemma SeqFactory.apply_inv (st : SeqFactory) (h : st.Inv) (e : SeqEvent) :
    (st.apply e).Inv := by
  cases e with
  | create => exact st.push_inv h _ rfl
  | fork i => exact st.push_inv h _ rfl

lemma SeqFactory.foldl_inv (evs : List SeqEvent) (st : SeqFactory) (h : st.Inv) :
    (evs.foldl SeqFactory.apply st).Inv := by
  induction evs generalizing st with
  | nil => exact h
  | cons e evs ih => exact ih _ (st.apply_inv h e)

end Lib

/-- C6: for any history of sequence creations and forks starting from the
initial static counter, the ids of the created sequences are strictly
increasing in creation order (hence pairwise distinct), and no sequence
ever receives id 0. -/
theorem sequence_ids_unique_monotone_nonzero (evs : List Lib.SeqEvent) :
    ((evs.foldl Lib.SeqFactory.apply Lib.SeqFactory.init).created.map
        Lib.Sequence.id).Pairwise (· < ·)
    ∧ ∀ s ∈ (evs.foldl Lib.SeqFactory.apply Lib.SeqFactory.init).created, s.id ≠ 0 := by
  obtain ⟨-, h2, h3⟩ := Lib.SeqFactory.foldl_inv evs Lib.SeqFactory.init Lib.SeqFactory.init_inv
  exact ⟨h3, fun s hs => by have := (h2 s hs).1; omega⟩

/-- Witness for C6 at a concrete creation history (a create, a fork of the
first sequence, another create). -/
theorem sequence_ids_unique_monotone_nonzero_witness :
    (([Lib.SeqEvent.create, Lib.SeqEvent.fork 0, Lib.SeqEvent.create].foldl
        Lib.SeqFactory.apply Lib.SeqFactory.init).created.map
        Lib.Sequence.id).Pairwise (· < ·)
    ∧ ∀ s ∈ ([Lib.SeqEvent.create, Lib.SeqEvent.fork 0, Lib.SeqEvent.create].foldl
        Lib.SeqFactory.apply Lib.SeqFactory.init).created, s.id ≠ 0 :=
  sequence_ids_unique_monotone_nonzero [Lib.SeqEvent.create, Lib.SeqEvent.fork 0,
    Lib.SeqEvent.create]

/-- C9: `get_beam_search_score` is the cumulative log prob divided by the
generated length raised (via the abstracted `std::pow`) to the length
penalty; and `get_finished_sequences` returns exactly the sequences whose
status is `FINISHED` (a permutation of the status filter, with matching
membership), ordered by descending beam-search score. -/
theorem beam_score_and_finished_order (pw : ℚ → ℚ → ℚ) (g : Lib.SequenceGroup) :
    (∀ (params : Lib.GenerationConfig) (s : Lib.Sequence),
        Lib.Sequence.get_beam_search_score pw params s
          = s.cumulative_log_prob / pw (s.get_generated_len : ℚ) params.length_penalty)
    ∧ (Lib.SequenceGroup.get_finished_sequences pw g).Perm
        (g.sequences.filter (fun s => s.has_finished))
    ∧ List.Sorted
        (fun s1 s2 => Lib.Sequence.get_beam_search_score pw g.sampling_params s2
          ≤ Lib.Sequence.get_beam_search_score pw g.sampling_params s1)
        (Lib.SequenceGroup.get_finished_sequences pw g)
    ∧ ∀ s : Lib.Sequence,
        s ∈ Lib.SequenceGroup.get_finished_sequences pw g
          ↔ s ∈ g.sequences ∧ s.has_finished = true := by
  refine ⟨fun _ _ => rfl, List.mergeSort_perm _ _, ?_, ?_⟩
  · have h := @List.sorted_mergeSort Lib.Sequence
      (fun s1 s2 =>
        decide (Lib.Sequence.get_beam_search_score pw g.sampling_params s2
          ≤ Lib.Sequence.get_beam_search_score pw g.sampling_params s1))
      (fun a b c h1 h2 => by
        simp only [decide_eq_true_eq] at h1 h2 ⊢
        exact h2.trans h1)
      (fun a b => by
        simp only [Bool.or_eq_true, decide_eq_true_eq]
        exact le_total _ _)
      (g.sequences.filter (fun s => s.has_finished))
    exact h.imp (fun hab => of_decide_eq_true hab)
  · intro s
    simp only [Lib.SequenceGroup.get_finished_sequences]
    rw [(List.mergeSort_perm _ _).mem_iff, List.mem_filter]

lemma lookup_eq_none_of_not_mem_keys {β : Type} (a : Nat) (l : List (Nat × β))
    (h : a ∉ l.map Prod.fst) : l.lookup a = none := by
  induction l with
  | nil => rfl
  | cons p l ih =>
      have h1 : a ≠ p.1 := by
        intro he
        exact h (by simp [he])
      have h2 : a ∉ l.map Prod.fst := fun hm => h (by simp [hm])
      cases p with
      | mk k v =>
          have hb : (a == k) = false := beq_eq_false_iff_ne.mpr h1
          simp only [List.lookup, hb]
          exact ih h2

lemma lookup_map_eq_some (l : List Lib.Sequence) (f : Lib.Sequence → Lib.GenerationOutput)
    (hnd : (l.map Lib.Sequence.id).Nodup) (s : Lib.Sequence) (hs : s ∈ l) :
    (l.map (fun t => (t.id, f t))).lookup s.id = some (f s) := by
  induction l with
  | nil => cases hs
  | cons t l ih =>
      rw [List.map_cons, List.nodup_cons] at hnd
      obtain ⟨ht, hnd2⟩ := hnd
      rcases List.mem_cons.mp hs with rfl | hs2
      · simp [List.lookup]
      · have hne : s.id ≠ t.id := by
          intro he
          exact ht (he ▸ List.mem_map_of_mem Lib.Sequence.id hs2)
        have hb : (s.id == t.id) = false := beq_eq_false_iff_ne.mpr hne
        simp only [List.map_cons, List.lookup, hb]
        exact ih hnd2 hs2

lemma notify_fold_eq (l : List Lib.Sequence) (outs : Lib.GenerationOutputs)
    (hnd : (l.map Lib.Sequence.id).Nodup)
    (hdisj : ∀ s ∈ l, ∀ p ∈ outs, p.1 ≠ s.id) :
    l.foldl
      (fun outs s =>
        if 0 < s.get_generated_len then Lib.emplace outs s.id s.get_last_generation_output
        else outs) outs
      = outs ++ (l.filter (fun s => 0 < s.get_generated_len)).map
          (fun s => (s.id, s.get_last_generation_output)) := by
  induction l generalizing outs with
  | nil => simp
  | cons s l ih =>
      rw [List.map_cons, List.nodup_cons] at hnd
      obtain ⟨hs, hnd2⟩ := hnd
      rw [List.foldl_cons]
      by_cases hlen : 0 < s.get_generated_len
      · rw [if_pos hlen]
        have hemp : Lib.emplace outs s.id s.get_last_generation_output
            = outs ++ [(s.id, s.get_last_generation_output)] := by
          rw [Lib.emplace, if_neg]
          simp only [List.any_eq_true, not_exists, decide_eq_true_eq, not_and]
          intro p hp
          exact hdisj s (List.mem_cons_self s l) p hp
        rw [hemp, ih]
        · simp [hlen]
        · exact hnd2
        · intro t ht p hp
          rcases List.mem_append.mp hp with hp | hp
          · exact hdisj t (List.mem_cons_of_mem s ht) p hp
          · rcases List.mem_singleton.mp hp with rfl
            intro he
            have hse : s.id = t.id := he
            refine hs ?_
            rw [hse]
            exact List.mem_map_of_mem Lib.Sequence.id ht
      · rw [if_neg hlen, ih]
        · simp [hlen]
        · exact hnd2
        · intro t ht p hp
          exact hdisj t (List.mem_cons_of_mem s ht) p hp

lemma notify_collect_eq (g : Lib.SequenceGroup)
    (h : (g.sequences.map Lib.Sequence.id).Nodup) :
    Lib.notify_collect g
      = (g.sequences.filter (fun s => 0 < s.get_generated_len)).map
          (fun s => (s.id, s.get_last_generation_output)) := by
  have he := notify_fold_eq g.sequences [] h (by simp)
  simpa [Lib.notify_collect] using he

/-- A concrete running sequence that generated one token. -/
def sEx5 : Lib.Sequence :=
  { generated_ids := [5], parent_id := 0, id := 1,
    status := Lib.SequenceStatus.RUNNING, cumulative_log_prob := 0 }

/-- A concrete group containing one running sequence that generated one
token before the first notify and nothing afterwards. -/
def gEx5 : Lib.SequenceGroup :=
  { request_id := 0, sequences := [sEx5],
    sampling_params := ⟨1⟩, block_size := 16, prompt_ids := [9], stream := [],
    num_processed_tokens := 2, num_scheduled_tokens := 0, max_content_len := 2 }

/-- C5 counterexample: the source pushes a snapshot for every sequence with
a non-empty generated tail, not only for sequences that produced a token
since the previous `notify_handle`.  On `gEx5`, two consecutive
`notify_handle` calls with no token appended in between push two stream
entries; the claim requires the second call to push none. -/
theorem notify_handle_pushes_stale_snapshot :
    gEx5.notify_handle.stream.length = 1
    ∧ gEx5.notify_handle.notify_handle.stream.length = 2 := by
  decide

/-- C5 amended: `notify_handle` pushes onto the group's generation stream
exactly one snapshot entry, keyed by `seq_id` and holding
`(parent_id, last generated token id, cumulative_log_prob)`, for every
sequence whose `generated_ids` is non-empty — whether or not that sequence
produced a token since the previous `notify_handle` call — and pushes
nothing only when every sequence's `generated_ids` is empty.  (Sequence ids
of distinct sequences are distinct; the hypothesis records that.) -/
theorem notify_handle_snapshot (g : Lib.SequenceGroup)
    (h : (g.sequences.map Lib.Sequence.id).Nodup) :
    ((Lib.notify_collect g).map Prod.fst).Nodup
    ∧ (∀ s ∈ g.sequences,
        (Lib.notify_collect g).lookup s.id
          = if 0 < s.get_generated_len then some s.get_last_generation_output else none)
    ∧ ((∀ s ∈ g.sequences, s.get_generated_len = 0) → g.notify_handle = g)
    ∧ ((∃ s ∈ g.sequences, 0 < s.get_generated_len) →
        g.notify_handle.stream = g.stream ++ [Lib.notify_collect g]) := by
  have hkeys : (Lib.notify_collect g).map Prod.fst
      = (g.sequences.filter (fun s => 0 < s.get_generated_len)).map Lib.Sequence.id := by
    rw [notify_collect_eq g h, List.map_map]
    rfl
  refine ⟨?_, ?_, ?_, ?_⟩
  · rw [hkeys]
    exact h.sublist (List.Sublist.map Lib.Sequence.id (List.filter_sublist g.sequences))
  · intro s hs
    by_cases hlen : 0 < s.get_generated_len
    · rw [if_pos hlen, notify_collect_eq g h]
      refine lookup_map_eq_some _ _ ?_ s ?_
      · exact h.sublist (List.Sublist.map Lib.Sequence.id (List.filter_sublist g.sequences))
      · exact List.mem_filter.mpr ⟨hs, by simpa using hlen⟩
    · rw [if_neg hlen]
      refine lookup_eq_none_of_not_mem_keys _ _ ?_
      rw [hkeys]
      intro hmem
      rcases List.mem_map.mp hmem with ⟨t, htf, hts⟩
      obtain ⟨htl, htlen⟩ := List.mem_filter.mp htf
      have : t = s := List.inj_on_of_nodup_map h htl hs hts
      rw [this] at htlen
      exact hlen (by simpa using htlen)
  · intro hall
    have hfe : g.sequences.filter (fun s => 0 < s.get_generated_len) = [] := by
      rw [List.filter_eq_nil_iff]
      intro s hs
      simp [hall s hs]
    rw [Lib.SequenceGroup.notify_handle, if_neg]
    simp [notify_collect_eq g h, hfe]
  · intro hex
    obtain ⟨s, hs, hlen⟩ := hex
    have hne : Lib.notify_collect g ≠ [] := by
      rw [notify_collect_eq g h]
      have : s ∈ g.sequences.filter (fun s => 0 < s.get_generated_len) :=
        List.mem_filter.mpr ⟨hs, by simpa using hlen⟩
      intro hnil
      rw [List.map_eq_nil_iff] at hnil
      rw [hnil] at this
      cases this
    rw [Lib.SequenceGroup.notify_handle, if_pos hne]

/-- A concrete running sequence (id 1) with one generated token. -/
def sW5a : Lib.Sequence :=
  { generated_ids := [4], parent_id := 0, id := 1,
    status := Lib.SequenceStatus.RUNNING, cumulative_log_prob := 0 }

/-- A concrete running sequence (id 2, forked from id 1) with no generated
tokens. -/
def sW5b : Lib.Sequence :=
  { generated_ids := [], parent_id := 1, id := 2,
    status := Lib.SequenceStatus.RUNNING, cumulative_log_prob := 0 }

/-- A concrete group with two distinct-id sequences, one with a generated
token and one without. -/
def gW5 : Lib.SequenceGroup :=
  { request_id := 1, sequences := [sW5a, sW5b],
    sampling_params := ⟨1⟩, block_size := 16, prompt_ids := [9], stream := [],
    num_processed_tokens := 1, num_scheduled_tokens := 0, max_content_len := 1 }

/-- Witness for the amended C5 at the concrete group `gW5`. -/
theorem notify_handle_snapshot_witness :
    (gW5.sequences.map Lib.Sequence.id).Nodup
    ∧ (((Lib.notify_collect gW5).map Prod.fst).Nodup
      ∧ (∀ s ∈ gW5.sequences,
          (Lib.notify_collect gW5).lookup s.id
            = if 0 < s.get_generated_len then some s.get_last_generation_output else none)
      ∧ ((∀ s ∈ gW5.sequences, s.get_generated_len = 0) → gW5.notify_handle = gW5)
      ∧ ((∃ s ∈ gW5.sequences, 0 < s.get_generated_len) →
          gW5.notify_handle.stream = gW5.stream ++ [Lib.notify_collect gW5])) :=
  ⟨by decide, notify_handle_snapshot gW5 (by decide)⟩

namespace CB

/-- Status enum of the older `continuous_batching/sequence_group.hpp`:
`WAITING = 0`, `FINISHED = 1`. -/
inductive SequenceStatus where
  | WAITING
  | FINISHED
deriving DecidableEq

/-- `class Sequence` of the older variant (no parent id field). -/
structure Sequence where
  generated_ids : List Int
  sequence_id : Nat
  status : SequenceStatus
  cumulative_log_prob : ℚ
deriving DecidableEq

/-- `Sequence::has_finished`. -/
def Sequence.has_finished (s : Sequence) : Bool :=
  decide (s.status = SequenceStatus.FINISHED)

/-- `Sequence::get_beam_search_scope` (sic; the source marks it
`TODO: implement`): returns the raw cumulative log prob. -/
def Sequence.get_beam_search_scope (s : Sequence) : ℚ :=
  s.cumulative_log_prob

/-- `class SequenceGroup` of the older variant. -/
structure SequenceGroup where
  request_id : Nat
  sequences : List Sequence
  prompt_ids : List Int
  num_processed_tokens : Nat
  num_scheduled_tokens : Nat
  max_content_len : Nat
deriving DecidableEq

/-- `SequenceGroup::num_total_seqs`. -/
def SequenceGroup.num_total_seqs (g : SequenceGroup) : Nat :=
  g.sequences.length

/-- `SequenceGroup::num_finished_seqs` (`std::count_if` on `has_finished`). -/
def SequenceGroup.num_finished_seqs (g : SequenceGroup) : Nat :=
  g.sequences.countP (fun s => s.has_finished)

/-- `SequenceGroup::num_running_seqs = num_total_seqs - num_finished_seqs`. -/
def SequenceGroup.num_running_seqs (g : SequenceGroup) : Nat :=
  g.num_total_seqs - g.num_finished_seqs

/-- `SequenceGroup::has_finished`. -/
def SequenceGroup.has_finished (g : SequenceGroup) : Bool :=
  decide (g.num_running_seqs = 0)

/-- `struct GenerationResult` of `llm_engine.hpp`. -/
structure GenerationResult where
  request_id : Nat
  generation_ids : List (List Int)
  cumulative_logprob : ℚ
deriving DecidableEq

/-- `GenerationResult::from_sequence_group`: pushes
`sequence_group[i].get_generated_ids()` for `i` from `0` to
`num_finished_seqs() - 1` — i.e. the first `num_finished_seqs()` sequences
in group index order — and leaves `m_cumulative_logprob` at `0.0f` (the
source reads `// TODO: track this information`). -/
def GenerationResult.from_sequence_group (g : SequenceGroup) : GenerationResult :=
  { request_id := g.request_id,
    generation_ids := (g.sequences.take g.num_finished_seqs).map
      (fun s => s.generated_ids),
    cumulative_logprob := 0 }

/-- The post-processing tail of `LLMEngine::step()`: one `GenerationResult`
per request group whose sequences have all finished, in request-vector
order.  The scheduler / model / sampler prefix of `step()` is outside the
modelled headers; the returned list depends only on the request state after
sampling, which the theorems quantify universally. -/
def step_results (requests : List SequenceGroup) : List GenerationResult :=
  (requests.filter (fun g => g.has_finished)).map GenerationResult.from_sequence_group

/-- The result-ordering tail of `LLMEngine::generate()`: `std::sort` of the
accumulated per-step results by `m_request_id <`, modelled by `mergeSort`
on the non-strict key order (the same sortedness-plus-permutation
contract `std::sort` guarantees). -/
def generate_results (rs : List GenerationResult) : List GenerationResult :=
  rs.mergeSort (fun r1 r2 => decide (r1.request_id ≤ r2.request_id))

lemma num_finished_le (g : SequenceGroup) : g.num_finished_seqs ≤ g.sequences.length :=
  List.countP_le_length _

lemma num_finished_eq_of_has_finished (g : SequenceGroup)
    (h : g.has_finished = true) : g.num_finished_seqs = g.sequences.length := by
  have h0 : g.num_running_seqs = 0 := of_decide_eq_true h
  have hle := num_finished_le g
  unfold SequenceGroup.num_running_seqs SequenceGroup.num_total_seqs at h0
  omega

end CB

/-- C2 amended: every `GenerationResult` returned by `step()` for a
finished group carries the group's request id, the generated token ids of
each of the group's (all finished) sequences in group index order — not
sorted by beam-search score — and a `cumulative_logprob` field hardcoded to
0 rather than any tracked log probability. -/
theorem step_results_finished_groups (requests : List CB.SequenceGroup)
    (r : CB.GenerationResult) (hr : r ∈ CB.step_results requests) :
    ∃ g ∈ requests, g.has_finished = true
      ∧ r.request_id = g.request_id
      ∧ r.generation_ids = g.sequences.map (fun s => s.generated_ids)
      ∧ r.cumulative_logprob = 0 := by
  rcases List.mem_map.mp hr with ⟨g, hgf, rfl⟩
  obtain ⟨hg, hfin⟩ := List.mem_filter.mp hgf
  refine ⟨g, hg, hfin, rfl, ?_, rfl⟩
  show (g.sequences.take g.num_finished_seqs).map (fun s => s.generated_ids)
    = g.sequences.map (fun s => s.generated_ids)
  rw [CB.num_finished_eq_of_has_finished g hfin, List.take_length]

/-- A concrete finished sequence for the C2 witness. -/
def sW2 : CB.Sequence :=
  { generated_ids := [11], sequence_id := 0,
    status := CB.SequenceStatus.FINISHED, cumulative_log_prob := -1 }

/-- A concrete finished group for the C2 witness. -/
def gW2 : CB.SequenceGroup :=
  { request_id := 3, sequences := [sW2], prompt_ids := [1],
    num_processed_tokens := 2, num_scheduled_tokens := 0, max_content_len := 2 }

/-- Witness for the amended C2 at a concrete finished request. -/
theorem step_results_finished_groups_witness :
    CB.GenerationResult.from_sequence_group gW2 ∈ CB.step_results [gW2]
    ∧ ∃ g ∈ [gW2], g.has_finished = true
      ∧ (CB.GenerationResult.from_sequence_group gW2).request_id = g.request_id
      ∧ (CB.GenerationResult.from_sequence_group gW2).generation_ids
          = g.sequences.map (fun s => s.generated_ids)
      ∧ (CB.GenerationResult.from_sequence_group gW2).cumulative_logprob = 0 :=
  ⟨by decide, step_results_finished_groups [gW2] _ (by decide)⟩

/-- A concrete finished sequence with the lower cumulative log prob. -/
def sC2a : CB.Sequence :=
  { generated_ids := [1], sequence_id := 1,
    status := CB.SequenceStatus.FINISHED, cumulative_log_prob := -2 }

/-- A concrete finished sequence with the higher cumulative log prob. -/
def sC2b : CB.Sequence :=
  { generated_ids := [2], sequence_id := 2,
    status := CB.SequenceStatus.FINISHED, cumulative_log_prob := -1 }

/-- A concrete finished group whose index order disagrees with descending
score order. -/
def gC2 : CB.SequenceGroup :=
  { request_id := 7, sequences := [sC2a, sC2b], prompt_ids := [3],
    num_processed_tokens := 2, num_scheduled_tokens := 0, max_content_len := 2 }

/-- C2 counterexample: for the finished group `gC2`, `step()` returns the
generated ids in group index order `[[1], [2]]` although the index-0
sequence has a strictly lower beam-search score than the index-1 sequence
(descending score order would be `[[2], [1]]`), and the returned cumulative
log probability is the hardcoded 0 although no sequence in the group has
cumulative log prob 0. -/
theorem step_result_not_sorted_not_logprob :
    CB.step_results [gC2]
      = [{ request_id := 7, generation_ids := [[1], [2]], cumulative_logprob := 0 }]
    ∧ CB.Sequence.get_beam_search_scope sC2a < CB.Sequence.get_beam_search_scope sC2b
    ∧ sC2a.cumulative_log_prob ≠ 0
    ∧ sC2b.cumulative_log_prob ≠ 0 := by
  decide

/-- C3: the vector returned by `generate` is sorted in ascending order of
`request_id` and is a permutation of the per-step partial results it
accumulated, for every such accumulation — hence regardless of the order
in which the requests finished. -/
theorem generate_results_sorted (rs : List CB.GenerationResult) :
    List.Sorted (fun r1 r2 => r1.request_id ≤ r2.request_id) (CB.generate_results rs)
    ∧ (CB.generate_results rs).Perm rs := by
  constructor
  · have h := @List.sorted_mergeSort CB.GenerationResult
      (fun r1 r2 => decide (r1.request_id ≤ r2.request_id))
      (fun a b c h1 h2 => by
        simp only [decide_eq_true_eq] at h1 h2 ⊢
        omega)
      (fun a b => by
        simp only [Bool.or_eq_true, decide_eq_true_eq]
        omega)
      rs
    exact h.imp (fun hab => of_decide_eq_true hab)
  · exact List.mergeSort_perm _ _
